import Mathlib

/-!
Shallow embedding of the `call-fsm` crate (`src/lib.rs`): a fixed-capacity,
polling finite-state-machine engine.  States live in a slot array of
`Option (State T)`, transitions in a capacity × capacity matrix of
`Option (Transition T)`, and `run` performs one tick: initialize the active
state if needed, execute it, scan its outgoing transitions in ascending
destination-slot order and fire the first one whose guard passes.  Hook
failures are funneled through an optional error-recovery callback pair that
may redirect the active slot by index or by name.

Modelling conventions:
* Rust hooks receive `&self` (the state or transition) plus `&mut T`; a hook
  can observe its own `name`/`src`/`dst` fields, so the embedded callback
  types take those fields as explicit arguments.  A hook may mutate the data
  and still return `Err`, so callbacks return the updated data together with
  an optional error.
* `Vec` capacity is its length here: `vec![None; n]` allocates exactly `n`
  slots and `add_state` writes in place, never growing the vector.
* `run` uses `.expect(..)` twice; a panic is modelled by `Option.none`.
* `runT` is `run` instrumented with a ghost trace of `Event`s recording, in
  order, every hook invocation the tick performs; `run` is its projection.
  The trace changes nothing about the computed machine.
-/

namespace CallFsm

/-- Error kinds exposed to callers (`FsmError` in `src/lib.rs`). -/
inductive FsmError where
  | StateIndexOutOfBounds
  | TransitionIndexOutOfBounds
  | MaxNumberOfStatesExceeded
  | AddTransitionSrcDstStatesEqual
  | StateIsEmpty
  | TransitionIsEmpty
deriving DecidableEq

/-- Redirect target returned by an error-recovery callback (`Destination`). -/
inductive Destination where
  | Index (i : Nat)
  | Name (n : String)
deriving DecidableEq

/-- A state hook `Fn(&State<T>, &mut T) -> Result<(), FsmError>`: it receives
the state's name (the observable content of `&State<T>`) and the shared data,
and returns the updated data plus an optional error. -/
def StateCallback (T : Type) : Type := String → T → T × Option FsmError

/-- A transition guard `Fn(&Transition<T>, &T) -> bool`: it receives the
transition's name, source and destination slots and reads the data. -/
def TransCheckCallback (T : Type) : Type := String → Nat → Nat → T → Bool

/-- A transition completion hook `Fn(&Transition<T>, &mut T) -> Result`. -/
def TransDoneCallback (T : Type) : Type := String → Nat → Nat → T → T × Option FsmError

/-- An error-recovery hook `Fn(FsmError, &mut T) -> Option<Destination>`:
mutates the data and may return a redirect target. -/
def ErrorCallback (T : Type) : Type := FsmError → T → T × Option Destination

/-- A named state holding an init hook and an exec hook (`State<T>`). -/
structure State (T : Type) where
  name : String
  init : StateCallback T
  exec : StateCallback T

/-- A named directed edge holding a guard and a completion hook
(`Transition<T>`).  `src` and `dst` are the fields stored in the value
itself; they are not re-checked against the matrix cell the transition is
registered into. -/
structure Transition (T : Type) where
  name : String
  src : Nat
  dst : Nat
  check : TransCheckCallback T
  done : TransDoneCallback T

/-- Invoke the init hook (`State::do_init`). -/
def State.do_init (s : State T) (data : T) : T × Option FsmError :=
  s.init s.name data

/-- Invoke the exec hook (`State::do_exec`). -/
def State.do_exec (s : State T) (data : T) : T × Option FsmError :=
  s.exec s.name data

/-- Invoke the guard hook (`Transition::do_check`); guards read the data
through a shared borrow, so the data is unchanged. -/
def Transition.do_check (t : Transition T) (data : T) : Bool :=
  t.check t.name t.src t.dst data

/-- Invoke the completion hook (`Transition::do_done`). -/
def Transition.do_done (t : Transition T) (data : T) : T × Option FsmError :=
  t.done t.name t.src t.dst data

/-- The machine (`StateMachine<T>`): shared data, slot array, occupied-slot
count, transition matrix, active-slot pointer, "active initialized" flag and
the optional error-recovery pair. -/
structure StateMachine (T : Type) where
  data : T
  states : List (Option (State T))
  num_states : Nat
  transitions : List (List (Option (Transition T)))
  active_state : Option Nat
  active_state_initialized : Bool
  error : Option (ErrorCallback T × ErrorCallback T)

/-- `StateMachine::new(data, max_states)`. -/
def StateMachine.new (data : T) (max_states : Nat) : StateMachine T :=
  { data := data
    states := List.replicate max_states none
    num_states := 0
    transitions := List.replicate max_states (List.replicate max_states none)
    active_state := none
    active_state_initialized := false
    error := none }

/-- `StateMachine::state`: bounds-checked read access to a slot. -/
def StateMachine.state (m : StateMachine T) (index : Nat) :
    Except FsmError (State T) :=
  if index ≥ m.num_states then
    .error .StateIndexOutOfBounds
  else
    match m.states.getD index none with
    | some s => .ok s
    | none => .error .StateIsEmpty

/-- Helper for `state_by_name`: linear scan over the slot array in index
order, as the Rust `for (i, s) in self.states.iter().enumerate()` loop. -/
def findStateIdx : List (Option (State T)) → String → Nat → Option Nat
  | [], _, _ => none
  | none :: rest, name, i => findStateIdx rest name (i + 1)
  | some s :: rest, name, i =>
    if name = s.name then some i else findStateIdx rest name (i + 1)

/-- `StateMachine::state_by_name`: first occupied slot with that name. -/
def StateMachine.state_by_name (m : StateMachine T) (name : String) :
    Option Nat :=
  findStateIdx m.states name 0

/-- `StateMachine::mut_state`: same checks as `state` (mutable borrow). -/
def StateMachine.mut_state (m : StateMachine T) (index : Nat) :
    Except FsmError (State T) :=
  if index ≥ m.num_states then
    .error .StateIndexOutOfBounds
  else
    match m.states.getD index none with
    | some s => .ok s
    | none => .error .StateIsEmpty

/-- `StateMachine::transition`: bounds-checked read of a matrix cell. -/
def StateMachine.transition (m : StateMachine T) (src dst : Nat) :
    Except FsmError (Transition T) :=
  if src ≥ m.num_states ∨ dst ≥ m.num_states then
    .error .TransitionIndexOutOfBounds
  else
    match (m.transitions.getD src []).getD dst none with
    | some t => .ok t
    | none => .error .TransitionIsEmpty

/-- `StateMachine::active_transitions`: the whole outgoing row of a slot. -/
def StateMachine.active_transitions (m : StateMachine T) (src : Nat) :
    Except FsmError (List (Option (Transition T))) :=
  if src ≥ m.num_states then
    .error .TransitionIndexOutOfBounds
  else
    .ok (m.transitions.getD src [])

/-- `StateMachine::add_state`: append into the next free slot; fails once the
occupied count reaches the capacity.  Returns the new index with the updated
machine. -/
def StateMachine.add_state (m : StateMachine T) (s : State T) :
    Except FsmError (StateMachine T × Nat) :=
  if m.num_states ≥ m.states.length then
    .error .MaxNumberOfStatesExceeded
  else
    .ok ({ m with
            states := m.states.set m.num_states (some s)
            num_states := m.num_states + 1 },
         m.num_states)

/-- `StateMachine::add_transition`: validates both registration indices
against the occupied count, rejects self-loops and stores the transition at
`matrix[src][dst]`, overwriting any prior entry. -/
def StateMachine.add_transition (m : StateMachine T) (t : Transition T)
    (src dst : Nat) : Except FsmError (StateMachine T) :=
  if src ≥ m.num_states ∨ dst ≥ m.num_states then
    .error .TransitionIndexOutOfBounds
  else if src = dst then
    .error .AddTransitionSrcDstStatesEqual
  else
    .ok { m with
            transitions :=
              m.transitions.set src
                ((m.transitions.getD src []).set dst (some t)) }

/-- `StateMachine::set_active_state`: validates via `state`; on success sets
the active slot.  The initialized flag is not touched. -/
def StateMachine.set_active_state (m : StateMachine T) (s : Nat) :
    Except FsmError (StateMachine T) :=
  match m.state s with
  | .ok _ => .ok { m with active_state := some s }
  | .error e => .error e

/-- `StateMachine::set_error_callbacks`. -/
def StateMachine.set_error_callbacks (m : StateMachine T)
    (init exec : ErrorCallback T) : StateMachine T :=
  { m with error := some (init, exec) }

/-- `StateMachine::do_error_callback`: log (ignored here), then, if the
recovery pair is installed, run the first hook for its data effect only, run
the second hook and apply its redirect when it resolves: an in-range index,
or a name found by `state_by_name`, reassigns the active slot and clears the
initialized flag; otherwise the redirect is silently dropped. -/
def StateMachine.do_error_callback (m : StateMachine T) (error : FsmError) :
    StateMachine T :=
  match m.error with
  | none => m
  | some (callback_init, callback_exec) =>
    match callback_exec error (callback_init error m.data).1 with
    | (d2, none) => { m with data := d2 }
    | (d2, some (Destination.Index next_state_index)) =>
      if next_state_index < m.num_states then
        { m with
            data := d2
            active_state := some next_state_index
            active_state_initialized := false }
      else
        { m with data := d2 }
    | (d2, some (Destination.Name next_state_name)) =>
      match m.state_by_name next_state_name with
      | some next_state_index =>
        { m with
            data := d2
            active_state := some next_state_index
            active_state_initialized := false }
      | none => { m with data := d2 }

/-- Ghost trace events: one per hook invocation performed by a tick.
`checkEv c b` records that the guard of the occupied matrix cell at column
(destination slot) `c` of the active row was evaluated with result `b`;
`doneEv c b` that the completion hook of that cell ran and whether it
succeeded; `errEv e` that the error-recovery dispatch was entered with `e`. -/
inductive Event where
  | initEv (i : Nat)
  | execEv (i : Nat)
  | checkEv (dst : Nat) (passed : Bool)
  | doneEv (dst : Nat) (ok : Bool)
  | errEv (e : FsmError)
deriving DecidableEq

/-- Result of the transition-scanning loop of `run`, with its ghost trace. -/
inductive ScanRes (T : Type) where
  | fired (dst : Nat) (d : T) (tr : List Event)
  | failed (e : FsmError) (d : T) (tr : List Event)
  | nopass (d : T) (tr : List Event)

/-- Prepend a ghost event to a scan result's trace. -/
def ScanRes.consEv (ev : Event) : ScanRes T → ScanRes T
  | .fired dst d tr => .fired dst d (ev :: tr)
  | .failed e d tr => .failed e d (ev :: tr)
  | .nopass d tr => .nopass d (ev :: tr)

/-- The `for t in next_state_trans` loop of `run`: walk the outgoing row in
ascending column (destination-slot) order; for each occupied cell evaluate
the guard; on the first passing guard run the completion hook and either
fire towards the transition's own `dst` field or fail. `col` is the column
of the first cell of `row`. -/
def scanTransitions : List (Option (Transition T)) → Nat → T → ScanRes T
  | [], _, d => .nopass d []
  | none :: rest, col, d => scanTransitions rest (col + 1) d
  | some t :: rest, col, d =>
    if t.do_check d then
      match t.do_done d with
      | (d', some e) => .failed e d' [Event.checkEv col true, Event.doneEv col false]
      | (d', none) => .fired t.dst d' [Event.checkEv col true, Event.doneEv col true]
    else
      (scanTransitions rest (col + 1) d).consEv (Event.checkEv col false)

/-- `StateMachine::run` (one tick), instrumented with the ghost event trace.
`none` models a panic of one of the two `.expect(..)` calls.  No-op when no
active slot is set. -/
def StateMachine.runT (m : StateMachine T) :
    Option (StateMachine T × List Event) :=
  match m.active_state with
  | none => some (m, [])
  | some active_state_index =>
    match m.state active_state_index with
    | .error _ => none
    | .ok active_state =>
      match (if m.active_state_initialized then (m.data, (none : Option FsmError))
             else active_state.do_init m.data) with
      | (d, some e) =>
        some (({ m with data := d }).do_error_callback e,
              [Event.initEv active_state_index, Event.errEv e])
      | (d1, none) =>
        let initTr : List Event :=
          if m.active_state_initialized then [] else [Event.initEv active_state_index]
        let m1 : StateMachine T := { m with data := d1, active_state_initialized := true }
        match active_state.do_exec m1.data with
        | (d2, some e) =>
          some (({ m1 with data := d2 }).do_error_callback e,
                initTr ++ [Event.execEv active_state_index, Event.errEv e])
        | (d2, none) =>
          let m2 : StateMachine T := { m1 with data := d2 }
          match m2.active_transitions active_state_index with
          | .error _ => none
          | .ok row =>
            match scanTransitions row 0 m2.data with
            | .failed e d3 tr =>
              some (({ m2 with data := d3 }).do_error_callback e,
                    initTr ++ Event.execEv active_state_index :: (tr ++ [Event.errEv e]))
            | .nopass d3 tr =>
              some ({ m2 with data := d3 },
                    initTr ++ Event.execEv active_state_index :: tr)
            | .fired dst d3 tr =>
              some ({ m2 with
                        data := d3
                        active_state := some dst
                        active_state_initialized := false },
                    initTr ++ Event.execEv active_state_index :: tr)

/-- `StateMachine::run` proper: the tick without the ghost trace. -/
def StateMachine.run (m : StateMachine T) : Option (StateMachine T) :=
  (m.runT).map Prod.fst

/-- Iterate `n` ticks, concatenating the ghost traces; `none` as soon as one
tick panics. -/
def StateMachine.runTN : StateMachine T → Nat → Option (StateMachine T × List Event)
  | m, 0 => some (m, [])
  | m, n + 1 =>
    match m.runT with
    | none => none
    | some (m', tr) =>
      match m'.runTN n with
      | none => none
      | some (m'', tr') => some (m'', tr ++ tr')

/-- Fold a sequence of `add_state` calls, collecting each call's result.  A
failed call leaves the machine unchanged, exactly as a Rust `Err` return
leaves `self` untouched. -/
def addStates (m : StateMachine T) :
    List (State T) → List (Except FsmError Nat) × StateMachine T
  | [] => ([], m)
  | s :: rest =>
    match m.add_state s with
    | .error e =>
      let p := addStates m rest
      (.error e :: p.1, p.2)
    | .ok (m1, i) =>
      let p := addStates m1 rest
      (.ok i :: p.1, p.2)

/-! Concrete fixtures used by witnesses and counterexamples. -/

/-- Name of the first fixture state. -/
def nm0 : String := "s0"

/-- Name of the second fixture state. -/
def nm1 : String := "s1"

/-- Name of the fixture transitions. -/
def nmT : String := "t01"

/-- A state whose hooks always succeed (init adds 1, exec adds 10). -/
def sOk : State Nat :=
  { name := nm0, init := fun _ d => (d + 1, none), exec := fun _ d => (d + 10, none) }

/-- A second always-succeeding state (init adds 1000, exec adds 100). -/
def sOk2 : State Nat :=
  { name := nm1, init := fun _ d => (d + 1000, none), exec := fun _ d => (d + 100, none) }

/-- A state whose init succeeds and whose exec always fails. -/
def sFail : State Nat :=
  { name := nm1
    init := fun _ d => (d + 1, none)
    exec := fun _ d => (d, some FsmError.StateIsEmpty) }

/-- A state whose init always fails (after mutating the data). -/
def sBadInit : State Nat :=
  { name := nm0
    init := fun _ d => (d + 5, some FsmError.StateIsEmpty)
    exec := fun _ d => (d + 10, none) }

/-- A well-formed transition towards slot 1, guard always true, hook ok. -/
def tGood : Transition Nat :=
  { name := nmT, src := 0, dst := 1
    check := fun _ _ _ _ => true
    done := fun _ _ _ d => (d + 7, none) }

/-- A transition whose own `dst` field (5) does not match the matrix cell it
gets registered into: `add_transition` never validates the fields. -/
def tRogue : Transition Nat :=
  { name := nmT, src := 0, dst := 5
    check := fun _ _ _ _ => true
    done := fun _ _ _ d => (d, none) }

/-- A transition whose guard passes but whose completion hook always fails. -/
def tFail : Transition Nat :=
  { name := nmT, src := 0, dst := 1
    check := fun _ _ _ _ => true
    done := fun _ _ _ d => (d, some FsmError.TransitionIsEmpty) }

/-! C3: registration up to capacity. -/

/-- Key lemma for C3: starting from occupied count `num_states ≤ capacity`,
a sequence of `capacity - num_states + 1` `add_state` calls yields the
indices `num_states, …, capacity-1` followed by one capacity failure. -/
theorem addStates_fill_fail (ss : List (State T)) :
    ∀ m : StateMachine T, m.num_states ≤ m.states.length →
      m.num_states + ss.length = m.states.length + 1 →
      (addStates m ss).1 =
        (List.range' m.num_states (m.states.length - m.num_states)).map Except.ok
          ++ [Except.error FsmError.MaxNumberOfStatesExceeded] := by
  induction ss with
  | nil =>
    intro m hle hlen
    simp only [List.length_nil, Nat.add_zero] at hlen
    omega
  | cons s rest ih =>
    intro m hle hlen
    by_cases hfull : m.num_states ≥ m.states.length
    · have hnum : m.num_states = m.states.length := Nat.le_antisymm hle hfull
      have hrest : rest.length = 0 := by
        simp only [List.length_cons] at hlen; omega
      have hrest' : rest = [] := List.length_eq_zero.mp hrest
      subst hrest'
      simp [addStates, StateMachine.add_state, if_pos hfull, hnum]
    · push_neg at hfull
      have hadd : m.add_state s =
          .ok ({ m with
                  states := m.states.set m.num_states (some s)
                  num_states := m.num_states + 1 },
               m.num_states) := by
        simp [StateMachine.add_state, Nat.not_le.mpr hfull]
      have hlen' : (m.states.set m.num_states (some s)).length = m.states.length :=
        List.length_set m.states m.num_states (some s)
      have ihm := ih { m with
                        states := m.states.set m.num_states (some s)
                        num_states := m.num_states + 1 }
        (by simp only [hlen']; omega)
        (by simp only [hlen', List.length_cons] at hlen ⊢; omega)
      simp only [addStates, hadd]
      simp only [hlen'] at ihm
      rw [ihm]
      have hr : m.states.length - m.num_states =
          (m.states.length - (m.num_states + 1)) + 1 := by omega
      rw [hr, List.range'_succ]
      simp

/-- C3: for every capacity `C > 0`, `C` consecutive `add_state` calls on a
fresh machine succeed with indices `0, …, C-1` in order, and the `(C+1)`-th
fails with `MaxNumberOfStatesExceeded`. -/
theorem add_state_fills_capacity_then_fails (C : Nat) (hC : 0 < C) (data : T)
    (ss : List (State T)) (hlen : ss.length = C + 1) :
    (addStates (StateMachine.new data C) ss).1 =
      (List.range C).map Except.ok
        ++ [Except.error FsmError.MaxNumberOfStatesExceeded] := by
  have h := addStates_fill_fail ss (StateMachine.new data C)
    (by simp [StateMachine.new]) (by simp [StateMachine.new, hlen])
  simpa [StateMachine.new, List.range_eq_range'] using h

/-- Witness for C3 at capacity 2 with three concrete states. -/
theorem add_state_fills_capacity_then_fails_witness :
    (addStates (StateMachine.new (0 : Nat) 2) [sOk, sOk, sOk]).1 =
      (List.range 2).map Except.ok
        ++ [Except.error FsmError.MaxNumberOfStatesExceeded] :=
  add_state_fills_capacity_then_fails 2 (by decide) 0 [sOk, sOk, sOk] (by decide)

/-! C9: `add_transition` validation and storage. -/

/-- C9: `add_transition` fails with `TransitionIndexOutOfBounds` when either
registration index reaches the occupied count, fails with
`AddTransitionSrcDstStatesEqual` on every in-range self-loop regardless of
the table's prior contents, and otherwise stores the transition at
`matrix[src][dst]`, overwriting whatever was there. -/
theorem add_transition_validation (m : StateMachine T) (t : Transition T)
    (src dst : Nat) :
    (src ≥ m.num_states ∨ dst ≥ m.num_states →
      m.add_transition t src dst = .error .TransitionIndexOutOfBounds) ∧
    (src < m.num_states → dst < m.num_states → src = dst →
      m.add_transition t src dst = .error .AddTransitionSrcDstStatesEqual) ∧
    (src < m.num_states → dst < m.num_states → src ≠ dst →
      src < m.transitions.length → dst < (m.transitions.getD src []).length →
      ∃ m', m.add_transition t src dst = .ok m' ∧
        (m'.transitions.getD src []).getD dst none = some t ∧
        m'.states = m.states ∧ m'.num_states = m.num_states ∧
        m'.active_state = m.active_state) := by
  refine ⟨?_, ?_, ?_⟩
  · intro h
    simp [StateMachine.add_transition, if_pos h]
  · intro h1 h2 h3
    subst h3
    have hno : ¬(src ≥ m.num_states ∨ src ≥ m.num_states) := by omega
    simp only [StateMachine.add_transition, if_neg hno, if_pos rfl]
    simp
  · intro h1 h2 h3 h4 h5
    have hno : ¬(src ≥ m.num_states ∨ dst ≥ m.num_states) := by omega
    refine ⟨{ m with
                transitions :=
                  m.transitions.set src
                    ((m.transitions.getD src []).set dst (some t)) },
            ?_, ?_, rfl, rfl, rfl⟩
    · simp [StateMachine.add_transition, hno, h3]
    · show ((m.transitions.set src
          ((m.transitions.getD src []).set dst (some t))).getD src []).getD dst none
          = some t
      simp only [List.getD_eq_getElem?_getD]
      rw [List.getElem?_set_self h4]
      simp only [Option.getD_some]
      rw [List.getElem?_set_self
        (by simpa [List.getD_eq_getElem?_getD] using h5)]
      simp

/-- A concrete two-state machine with an empty transition table, slot 0
active and not yet initialized. -/
def mTwo : StateMachine Nat :=
  { data := 0
    states := [some sOk, some sOk2]
    num_states := 2
    transitions := [[none, none], [none, none]]
    active_state := some 0
    active_state_initialized := false
    error := none }

/-- Witness for C9 on a concrete two-state machine. -/
theorem add_transition_validation_witness :
    (mTwo.add_transition tFail 2 0 = .error .TransitionIndexOutOfBounds) ∧
    (mTwo.add_transition tFail 1 1 = .error .AddTransitionSrcDstStatesEqual) ∧
    (∃ m', mTwo.add_transition tFail 0 1 = .ok m' ∧
      (m'.transitions.getD 0 []).getD 1 none = some tFail ∧
      m'.states = mTwo.states ∧ m'.num_states = mTwo.num_states ∧
      m'.active_state = mTwo.active_state) :=
  ⟨(add_transition_validation mTwo tFail 2 0).1 (Or.inl (by decide)),
   (add_transition_validation mTwo tFail 1 1).2.1 (by decide) (by decide) rfl,
   (add_transition_validation mTwo tFail 0 1).2.2 (by decide) (by decide)
     (by decide) (by decide) (by decide)⟩

/-! Structural facts about the error-recovery dispatch. -/

/-- `do_error_callback` never touches the slot array, the occupied count,
the transition matrix or the installed callback pair. -/
theorem do_error_callback_preserves (m : StateMachine T) (e : FsmError) :
    (m.do_error_callback e).states = m.states ∧
    (m.do_error_callback e).num_states = m.num_states ∧
    (m.do_error_callback e).transitions = m.transitions ∧
    (m.do_error_callback e).error = m.error := by
  unfold StateMachine.do_error_callback
  split
  · exact ⟨rfl, rfl, rfl, rfl⟩
  · split
    · exact ⟨rfl, rfl, rfl, rfl⟩
    · split <;> exact ⟨rfl, rfl, rfl, rfl⟩
    · split <;> exact ⟨rfl, rfl, rfl, rfl⟩

/-- `do_error_callback` either leaves the active slot alone or clears the
initialized flag. -/
theorem do_error_callback_active_or (m : StateMachine T) (e : FsmError) :
    (m.do_error_callback e).active_state = m.active_state ∨
    (m.do_error_callback e).active_state_initialized = false := by
  unfold StateMachine.do_error_callback
  split
  · exact Or.inl rfl
  · split
    · exact Or.inl rfl
    · split
      · exact Or.inr rfl
      · exact Or.inl rfl
    · split
      · exact Or.inr rfl
      · exact Or.inl rfl

/-- `do_error_callback` never sets the initialized flag: if it was false
before dispatch it is false afterwards. -/
theorem do_error_callback_flag_false (m : StateMachine T) (e : FsmError)
    (h : m.active_state_initialized = false) :
    (m.do_error_callback e).active_state_initialized = false := by
  unfold StateMachine.do_error_callback
  split
  · exact h
  · split
    · exact h
    · split
      · rfl
      · exact h
    · split
      · rfl
      · exact h

/-- With no recovery pair installed, `do_error_callback` is a no-op. -/
theorem do_error_callback_none (m : StateMachine T) (e : FsmError)
    (h : m.error = none) : m.do_error_callback e = m := by
  unfold StateMachine.do_error_callback
  rw [h]

/-! C4: the redirect of the second recovery hook is applied iff it
resolves. -/

/-- C4: when a hook failure dispatches an installed recovery pair, the
second hook's redirect is applied exactly when it resolves: an index below
the occupied count, or a name found among the registered states, reassigns
the active slot and clears the initialized flag; `none`, an out-of-range
index or an unknown name leave both untouched. -/
theorem error_redirect_applied_iff_resolves (m : StateMachine T)
    (cb1 cb2 : ErrorCallback T) (e : FsmError)
    (h : m.error = some (cb1, cb2)) :
    ((cb2 e (cb1 e m.data).1).2 = none →
      (m.do_error_callback e).active_state = m.active_state ∧
      (m.do_error_callback e).active_state_initialized
        = m.active_state_initialized) ∧
    (∀ i, (cb2 e (cb1 e m.data).1).2 = some (Destination.Index i) →
      (i < m.num_states →
        (m.do_error_callback e).active_state = some i ∧
        (m.do_error_callback e).active_state_initialized = false) ∧
      (¬ i < m.num_states →
        (m.do_error_callback e).active_state = m.active_state ∧
        (m.do_error_callback e).active_state_initialized
          = m.active_state_initialized)) ∧
    (∀ n, (cb2 e (cb1 e m.data).1).2 = some (Destination.Name n) →
      (∀ j, m.state_by_name n = some j →
        (m.do_error_callback e).active_state = some j ∧
        (m.do_error_callback e).active_state_initialized = false) ∧
      (m.state_by_name n = none →
        (m.do_error_callback e).active_state = m.active_state ∧
        (m.do_error_callback e).active_state_initialized
          = m.active_state_initialized)) := by
  rcases hc : cb2 e (cb1 e m.data).1 with ⟨d2, dest⟩
  refine ⟨?_, ?_, ?_⟩
  · intro hnone
    simp only at hnone
    subst hnone
    simp [StateMachine.do_error_callback, h, hc]
  · intro i hidx
    simp only at hidx
    subst hidx
    constructor
    · intro hlt
      simp [StateMachine.do_error_callback, h, hc, hlt]
    · intro hge
      simp [StateMachine.do_error_callback, h, hc, hge]
  · intro n hname
    simp only at hname
    subst hname
    constructor
    · intro j hj
      simp [StateMachine.do_error_callback, h, hc, hj]
    · intro hn
      simp [StateMachine.do_error_callback, h, hc, hn]

/-- Recovery hook that only observes the error (returns no redirect). -/
def cbIgnore : ErrorCallback Nat := fun _ d => (d, none)

/-- Recovery hook that redirects to slot index 1. -/
def cbRedirIdx1 : ErrorCallback Nat := fun _ d => (d, some (Destination.Index 1))

/-- The two-state machine with the index-redirecting recovery pair. -/
def mRecover : StateMachine Nat :=
  { mTwo with error := some (cbIgnore, cbRedirIdx1) }

/-- Witness for C4: the redirect to index 1 resolves on `mRecover`. -/
theorem error_redirect_applied_iff_resolves_witness :
    ((cbRedirIdx1 FsmError.StateIsEmpty
        (cbIgnore FsmError.StateIsEmpty mRecover.data).1).2 = none →
      (mRecover.do_error_callback FsmError.StateIsEmpty).active_state
          = mRecover.active_state ∧
      (mRecover.do_error_callback FsmError.StateIsEmpty).active_state_initialized
          = mRecover.active_state_initialized) ∧
    (∀ i, (cbRedirIdx1 FsmError.StateIsEmpty
        (cbIgnore FsmError.StateIsEmpty mRecover.data).1).2
          = some (Destination.Index i) →
      (i < mRecover.num_states →
        (mRecover.do_error_callback FsmError.StateIsEmpty).active_state = some i ∧
        (mRecover.do_error_callback
          FsmError.StateIsEmpty).active_state_initialized = false) ∧
      (¬ i < mRecover.num_states →
        (mRecover.do_error_callback FsmError.StateIsEmpty).active_state
            = mRecover.active_state ∧
        (mRecover.do_error_callback FsmError.StateIsEmpty).active_state_initialized
            = mRecover.active_state_initialized)) ∧
    (∀ n, (cbRedirIdx1 FsmError.StateIsEmpty
        (cbIgnore FsmError.StateIsEmpty mRecover.data).1).2
          = some (Destination.Name n) →
      (∀ j, mRecover.state_by_name n = some j →
        (mRecover.do_error_callback FsmError.StateIsEmpty).active_state = some j ∧
        (mRecover.do_error_callback
          FsmError.StateIsEmpty).active_state_initialized = false) ∧
      (mRecover.state_by_name n = none →
        (mRecover.do_error_callback FsmError.StateIsEmpty).active_state
            = mRecover.active_state ∧
        (mRecover.do_error_callback FsmError.StateIsEmpty).active_state_initialized
            = mRecover.active_state_initialized)) :=
  error_redirect_applied_iff_resolves mRecover cbIgnore cbRedirIdx1
    FsmError.StateIsEmpty rfl

/-! C7: init failure skips exec and does not mark the state initialized. -/

/-- C7: on a tick whose active state is uninitialized and whose init hook
fails, `run` dispatches the error-recovery path (with the init hook's data
mutation applied) and returns; the trace shows init was invoked but exec was
not, and the initialized flag is still false afterwards. -/
theorem init_failure_skips_exec (m : StateMachine T) (i : Nat) (s : State T)
    (d : T) (e : FsmError)
    (h1 : m.active_state = some i) (h2 : m.state i = .ok s)
    (hflag : m.active_state_initialized = false)
    (hfail : s.do_init m.data = (d, some e)) :
    m.runT = some (({ m with data := d }).do_error_callback e,
                   [Event.initEv i, Event.errEv e]) ∧
    (({ m with data := d }).do_error_callback e).active_state_initialized
      = false := by
  constructor
  · simp only [StateMachine.runT, h1, h2, hflag]
    simp only [Bool.false_eq_true, if_false, hfail]
  · exact do_error_callback_flag_false _ _ (by simpa using hflag)

/-- A one-state machine whose init hook fails. -/
def mBadInit : StateMachine Nat :=
  { data := 0
    states := [some sBadInit]
    num_states := 1
    transitions := [[none]]
    active_state := some 0
    active_state_initialized := false
    error := none }

/-- Witness for C7 on `mBadInit`. -/
theorem init_failure_skips_exec_witness :
    mBadInit.runT = some (({ mBadInit with data := 5 }).do_error_callback
        FsmError.StateIsEmpty,
      [Event.initEv 0, Event.errEv FsmError.StateIsEmpty]) ∧
    (({ mBadInit with data := 5 }).do_error_callback
        FsmError.StateIsEmpty).active_state_initialized = false :=
  init_failure_skips_exec mBadInit 0 sBadInit 5 FsmError.StateIsEmpty
    rfl rfl rfl rfl

/-! Trace extractors and a specification of the scanning loop. -/

/-- Columns (destination slots) of the guard evaluations in a trace, in
evaluation order. -/
def checkCols : List Event → List Nat
  | [] => []
  | Event.checkEv c _ :: r => c :: checkCols r
  | _ :: r => checkCols r

/-- Columns of the completion-hook invocations in a trace, in order. -/
def doneCols : List Event → List Nat
  | [] => []
  | Event.doneEv c _ :: r => c :: doneCols r
  | _ :: r => doneCols r

theorem checkCols_append (a b : List Event) :
    checkCols (a ++ b) = checkCols a ++ checkCols b := by
  induction a with
  | nil => rfl
  | cons ev r ih => cases ev <;> simp [checkCols, ih]

theorem doneCols_append (a b : List Event) :
    doneCols (a ++ b) = doneCols a ++ doneCols b := by
  induction a with
  | nil => rfl
  | cons ev r ih => cases ev <;> simp [doneCols, ih]

theorem checkCols_map_false (l : List Nat) :
    checkCols (l.map (fun c => Event.checkEv c false)) = l := by
  induction l with
  | nil => rfl
  | cons c r ih => simp [checkCols, ih]

theorem doneCols_map_false (l : List Nat) :
    doneCols (l.map (fun c => Event.checkEv c false)) = [] := by
  induction l with
  | nil => rfl
  | cons c r ih => simp [doneCols, ih]

/-- Columns of the occupied cells of a row, in ascending order; `col` is the
column of the row's first cell. -/
def occCols : List (Option (Transition T)) → Nat → List Nat
  | [], _ => []
  | none :: rest, col => occCols rest (col + 1)
  | some _ :: rest, col => col :: occCols rest (col + 1)

/-- First occupied cell of the row whose guard passes on `d`, together with
its column: the cell whose completion hook the loop will run. -/
def firstPass : List (Option (Transition T)) → Nat → T → Option (Nat × Transition T)
  | [], _, _ => none
  | none :: rest, col, d => firstPass rest (col + 1) d
  | some t :: rest, col, d =>
    if t.do_check d then some (col, t) else firstPass rest (col + 1) d

theorem occCols_ge (row : List (Option (Transition T))) :
    ∀ col c, c ∈ occCols row col → col ≤ c := by
  induction row with
  | nil => intro col c hc; simp [occCols] at hc
  | cons o rest ih =>
    intro col c hc
    cases o with
    | none =>
      have := ih (col + 1) c (by simpa [occCols] using hc)
      omega
    | some t =>
      rcases (by simpa [occCols] using hc : c = col ∨ c ∈ occCols rest (col + 1))
        with h | h
      · omega
      · have := ih (col + 1) c h
        omega

theorem occCols_pairwise (row : List (Option (Transition T))) :
    ∀ col, List.Pairwise (· < ·) (occCols row col) := by
  induction row with
  | nil => intro col; simp [occCols]
  | cons o rest ih =>
    intro col
    cases o with
    | none => simpa [occCols] using ih (col + 1)
    | some t =>
      simp only [occCols, List.pairwise_cons]
      exact ⟨fun c hc => by have := occCols_ge rest (col + 1) c hc; omega,
             ih (col + 1)⟩

theorem firstPass_ge (row : List (Option (Transition T))) :
    ∀ col d c t, firstPass row col d = some (c, t) → col ≤ c := by
  induction row with
  | nil => intro col d c t h; simp [firstPass] at h
  | cons o rest ih =>
    intro col d c t h
    cases o with
    | none =>
      have := ih (col + 1) d c t (by simpa [firstPass] using h)
      omega
    | some t' =>
      by_cases hc : t'.do_check d
      · simp [firstPass, hc] at h
        omega
      · have := ih (col + 1) d c t (by simpa [firstPass, hc] using h)
        omega

theorem firstPass_mem (row : List (Option (Transition T))) :
    ∀ col d c t, firstPass row col d = some (c, t) → c ∈ occCols row col := by
  induction row with
  | nil => intro col d c t h; simp [firstPass] at h
  | cons o rest ih =>
    intro col d c t h
    cases o with
    | none =>
      simpa [occCols] using ih (col + 1) d c t (by simpa [firstPass] using h)
    | some t' =>
      by_cases hc : t'.do_check d
      · simp [firstPass, hc] at h
        simp [occCols, h.1]
      · simp only [occCols]
        exact List.mem_cons_of_mem _
          (ih (col + 1) d c t (by simpa [firstPass, hc] using h))

/-- Characterization of the scanning loop: it evaluates, in ascending column
order, the guard of every occupied cell up to (and including) the first one
that passes; it runs that cell's completion hook and either fires towards the
transition's `dst` field or fails; if no guard passes it evaluates every
occupied cell's guard and reports `nopass`. -/
theorem scanTransitions_eq (row : List (Option (Transition T))) :
    ∀ (col : Nat) (d : T),
      scanTransitions row col d =
        match firstPass row col d with
        | none =>
          .nopass d ((occCols row col).map (fun c => Event.checkEv c false))
        | some (c, t) =>
          match t.do_done d with
          | (d', some e) =>
            .failed e d'
              (((occCols row col).filter (fun x => x < c)).map
                  (fun x => Event.checkEv x false)
                ++ [Event.checkEv c true, Event.doneEv c false])
          | (d', none) =>
            .fired t.dst d'
              (((occCols row col).filter (fun x => x < c)).map
                  (fun x => Event.checkEv x false)
                ++ [Event.checkEv c true, Event.doneEv c true]) := by
  induction row with
  | nil => intro col d; rfl
  | cons o rest ih =>
    intro col d
    cases o with
    | none =>
      simp only [scanTransitions, firstPass, occCols]
      exact ih (col + 1) d
    | some t =>
      by_cases hc : t.do_check d
      · have hfil : (occCols rest (col + 1)).filter (fun x => decide (x < col)) = [] := by
          rw [List.filter_eq_nil_iff]
          intro a ha
          have := occCols_ge rest (col + 1) a ha
          simp only [decide_eq_true_eq]
          omega
        simp only [scanTransitions, firstPass, occCols, hc, if_true]
        rcases hdd : t.do_done d with ⟨d', e?⟩
        cases e? <;>
          simp [List.filter, hfil]
      · simp only [scanTransitions, firstPass, occCols, hc, if_false]
        rw [ih (col + 1) d]
        cases hfp : firstPass rest (col + 1) d with
        | none => simp [ScanRes.consEv]
        | some ct =>
          obtain ⟨c, t'⟩ := ct
          have hge : col + 1 ≤ c := firstPass_ge rest (col + 1) d c t' hfp
          have hcol : decide (col < c) = true := by
            simp only [decide_eq_true_eq]; omega
          rcases hdd : t'.do_done d with ⟨d', e?⟩
          cases e? <;> simp [ScanRes.consEv, hdd, List.filter, hcol]

/-- A slot read that returns a state implies the index is in range. -/
theorem state_ok_lt (m : StateMachine T) (i : Nat) (s : State T)
    (h : m.state i = .ok s) : i < m.num_states := by
  by_contra hge
  rw [StateMachine.state, if_pos (by omega)] at h
  cases h

/-- A slot read that returns a state implies the slot holds that state. -/
theorem state_ok_getD (m : StateMachine T) (i : Nat) (s : State T)
    (h : m.state i = .ok s) : m.states.getD i none = some s := by
  rw [StateMachine.state] at h
  split at h
  · cases h
  · split at h
    · rename_i s' heq
      cases h
      exact heq
    · cases h

/-- Equation for a tick whose init (if needed) and exec both succeed: the
result is entirely determined by the scan of the active row on the
post-exec data. -/
theorem runT_exec_ok (m : StateMachine T) (i : Nat) (s : State T) (d1 d2 : T)
    (h1 : m.active_state = some i) (h2 : m.state i = .ok s)
    (h3 : (if m.active_state_initialized then (m.data, (none : Option FsmError))
           else s.do_init m.data) = (d1, none))
    (h4 : s.do_exec d1 = (d2, none)) :
    m.runT =
      (match scanTransitions (m.transitions.getD i []) 0 d2 with
       | .failed e d3 tr =>
         some (({ m with data := d3, active_state_initialized := true }).do_error_callback e,
           (if m.active_state_initialized then [] else [Event.initEv i])
             ++ Event.execEv i :: (tr ++ [Event.errEv e]))
       | .nopass d3 tr =>
         some ({ m with data := d3, active_state_initialized := true },
           (if m.active_state_initialized then [] else [Event.initEv i])
             ++ Event.execEv i :: tr)
       | .fired dst d3 tr =>
         some ({ m with data := d3, active_state := some dst, active_state_initialized := false },
           (if m.active_state_initialized then [] else [Event.initEv i])
             ++ Event.execEv i :: tr)) := by
  have hlt : i < m.num_states := state_ok_lt m i s h2
  simp only [StateMachine.runT, h1, h2]
  rw [h3]
  dsimp only
  rw [h4]
  dsimp only
  rw [StateMachine.active_transitions]
  dsimp only
  rw [if_neg (by omega : ¬ i ≥ m.num_states)]

/-- C2: on a tick whose init (if needed) and exec succeed, the guards are
evaluated in strictly ascending destination-slot order; they are exactly the
occupied cells up to and including the first passing one (all occupied cells
when none passes); the completion hook runs only for that first passing
cell; and when the completion hook succeeds the active slot becomes that
transition's destination with the initialized flag cleared. -/
theorem run_scans_first_matching_transition (m : StateMachine T) (i : Nat)
    (s : State T) (d1 d2 : T)
    (h1 : m.active_state = some i) (h2 : m.state i = .ok s)
    (h3 : (if m.active_state_initialized then (m.data, (none : Option FsmError))
           else s.do_init m.data) = (d1, none))
    (h4 : s.do_exec d1 = (d2, none)) :
    ∃ m' tr, m.runT = some (m', tr) ∧
      List.Pairwise (· < ·) (checkCols tr) ∧
      (match firstPass (m.transitions.getD i []) 0 d2 with
       | none =>
         doneCols tr = [] ∧ checkCols tr = occCols (m.transitions.getD i []) 0
       | some (c, t) =>
         checkCols tr
             = ((occCols (m.transitions.getD i []) 0).filter (fun x => x < c))
               ++ [c] ∧
         doneCols tr = [c] ∧
         (∀ x ∈ checkCols tr, x ≤ c) ∧
         ((t.do_done d2).2 = none →
           m'.active_state = some t.dst ∧
           m'.active_state_initialized = false)) := by
  have heq := runT_exec_ok m i s d1 d2 h1 h2 h3 h4
  rw [scanTransitions_eq] at heq
  have hCheckIf : checkCols
      (if m.active_state_initialized then ([] : List Event)
       else [Event.initEv i]) = [] := by
    cases m.active_state_initialized <;> rfl
  have hDoneIf : doneCols
      (if m.active_state_initialized then ([] : List Event)
       else [Event.initEv i]) = [] := by
    cases m.active_state_initialized <;> rfl
  cases hfp : firstPass (m.transitions.getD i []) 0 d2 with
  | none =>
    rw [hfp] at heq
    dsimp only at heq ⊢
    refine ⟨_, _, heq, ?_, ?_, ?_⟩
    · rw [checkCols_append, hCheckIf]
      simp only [checkCols, List.nil_append]
      rw [checkCols_map_false]
      exact occCols_pairwise _ 0
    · rw [doneCols_append, hDoneIf]
      simp only [doneCols, List.nil_append]
      exact doneCols_map_false _
    · rw [checkCols_append, hCheckIf]
      simp only [checkCols, List.nil_append]
      exact checkCols_map_false _
  | some ct =>
    obtain ⟨c, t⟩ := ct
    rw [hfp] at heq
    dsimp only at heq ⊢
    rcases hdd : t.do_done d2 with ⟨d3, e?⟩
    rw [hdd] at heq
    have hfilter_pair :
        List.Pairwise (fun a b => a < b)
          (((occCols (m.transitions.getD i []) 0).filter (fun x => x < c))
            ++ [c]) := by
      rw [List.pairwise_append]
      refine ⟨List.Pairwise.filter _ (occCols_pairwise _ 0), by simp, ?_⟩
      intro a ha b hb
      rw [List.mem_singleton] at hb
      subst hb
      have := List.of_mem_filter ha
      simpa using this
    have hle : ∀ x ∈ ((occCols (m.transitions.getD i []) 0).filter
        (fun x => x < c)) ++ [c], x ≤ c := by
      intro x hx
      rcases List.mem_append.mp hx with hx | hx
      · have := List.of_mem_filter hx
        simp only [decide_eq_true_eq] at this
        omega
      · rw [List.mem_singleton] at hx
        omega
    cases e? with
    | some e =>
      dsimp only at heq
      refine ⟨_, _, heq, ?_, ?_, ?_, ?_, ?_⟩
      · rw [checkCols_append, hCheckIf]
        simp only [checkCols, List.nil_append, List.append_assoc]
        rw [checkCols_append, checkCols_map_false]
        simpa [checkCols] using hfilter_pair
      · rw [checkCols_append, hCheckIf]
        simp only [checkCols, List.nil_append, List.append_assoc]
        rw [checkCols_append, checkCols_map_false]
        simp [checkCols]
      · rw [doneCols_append, hDoneIf]
        simp only [doneCols, doneCols_append, doneCols_map_false,
          List.nil_append, List.append_nil, List.append_assoc]
      · intro x hx
        apply hle
        revert hx
        rw [checkCols_append, hCheckIf]
        simp only [checkCols, List.nil_append, List.append_assoc]
        rw [checkCols_append, checkCols_map_false]
        simp [checkCols]
      · intro hnone
        simp [hdd] at hnone
    | none =>
      dsimp only at heq
      refine ⟨_, _, heq, ?_, ?_, ?_, ?_, ?_⟩
      · rw [checkCols_append, hCheckIf]
        simp only [checkCols, List.nil_append, List.append_assoc]
        rw [checkCols_append, checkCols_map_false]
        simpa [checkCols] using hfilter_pair
      · rw [checkCols_append, hCheckIf]
        simp only [checkCols, List.nil_append, List.append_assoc]
        rw [checkCols_append, checkCols_map_false]
        simp [checkCols]
      · rw [doneCols_append, hDoneIf]
        simp only [doneCols, doneCols_append, doneCols_map_false,
          List.nil_append, List.append_nil, List.append_assoc]
      · intro x hx
        apply hle
        revert hx
        rw [checkCols_append, hCheckIf]
        simp only [checkCols, List.nil_append, List.append_assoc]
        rw [checkCols_append, checkCols_map_false]
        simp [checkCols]
      · intro _
        exact ⟨rfl, rfl⟩

/-- A two-state machine with the well-formed transition `tGood` registered
at cell (0, 1), slot 0 active and uninitialized. -/
def mScan : StateMachine Nat :=
  { data := 0
    states := [some sOk, some sOk2]
    num_states := 2
    transitions := [[none, some tGood], [none, none]]
    active_state := some 0
    active_state_initialized := false
    error := none }

/-- Witness for C2 on `mScan` (init yields data 1, exec data 11). -/
theorem run_scans_first_matching_transition_witness :
    ∃ m' tr, mScan.runT = some (m', tr) ∧
      List.Pairwise (· < ·) (checkCols tr) ∧
      (match firstPass (mScan.transitions.getD 0 []) 0 11 with
       | none =>
         doneCols tr = [] ∧
         checkCols tr = occCols (mScan.transitions.getD 0 []) 0
       | some (c, t) =>
         checkCols tr
             = ((occCols (mScan.transitions.getD 0 []) 0).filter
                  (fun x => x < c)) ++ [c] ∧
         doneCols tr = [c] ∧
         (∀ x ∈ checkCols tr, x ≤ c) ∧
         ((t.do_done 11).2 = none →
           m'.active_state = some t.dst ∧
           m'.active_state_initialized = false)) :=
  run_scans_first_matching_transition mScan 0 sOk 1 11 rfl rfl rfl rfl

/-! C8: completion-hook failure. -/

/-- C8 (amended): when the first passing guard's completion hook fails, the
tick dispatches the error-recovery path on the machine whose active slot and
slot tables are unchanged (only the data and the initialized flag, already
set true this tick, differ); in particular with no recovery pair installed
the active slot is unchanged and the flag is true, so the next tick retries
exec of the still-active state.  An installed redirect may reassign the
slot (see the counterexample). -/
theorem done_failure_retries_unless_redirected (m : StateMachine T) (i : Nat)
    (s : State T) (d1 d2 : T) (c : Nat) (t : Transition T) (d3 : T)
    (e : FsmError)
    (h1 : m.active_state = some i) (h2 : m.state i = .ok s)
    (h3 : (if m.active_state_initialized then (m.data, (none : Option FsmError))
           else s.do_init m.data) = (d1, none))
    (h4 : s.do_exec d1 = (d2, none))
    (hfp : firstPass (m.transitions.getD i []) 0 d2 = some (c, t))
    (hdf : t.do_done d2 = (d3, some e)) :
    ∃ tr, m.runT = some
        (({ m with data := d3, active_state_initialized := true }).do_error_callback e, tr) ∧
      doneCols tr = [c] ∧
      (m.error = none →
        (({ m with data := d3, active_state_initialized := true }).do_error_callback e).active_state
            = m.active_state ∧
        (({ m with data := d3, active_state_initialized := true }).do_error_callback e).active_state_initialized
            = true) := by
  have heq := runT_exec_ok m i s d1 d2 h1 h2 h3 h4
  rw [scanTransitions_eq, hfp] at heq
  dsimp only at heq
  rw [hdf] at heq
  dsimp only at heq
  have hDoneIf : doneCols
      (if m.active_state_initialized then ([] : List Event)
       else [Event.initEv i]) = [] := by
    cases m.active_state_initialized <;> rfl
  refine ⟨_, heq, ?_, ?_⟩
  · rw [doneCols_append, hDoneIf]
    simp only [doneCols, doneCols_append, doneCols_map_false,
      List.nil_append, List.append_nil, List.append_assoc]
  · intro herr
    rw [do_error_callback_none
      ({ m with data := d3, active_state_initialized := true }) e herr]
    exact ⟨rfl, rfl⟩

/-- The `mScan` machine with the failing transition `tFail` at (0, 1) and an
index-redirecting recovery pair installed. -/
def mDoneFailRedir : StateMachine Nat :=
  { data := 0
    states := [some sOk, some sOk2]
    num_states := 2
    transitions := [[none, some tFail], [none, none]]
    active_state := some 0
    active_state_initialized := false
    error := some (cbIgnore, cbRedirIdx1) }

/-- Counterexample to C8 as stated: with a recovery redirect installed, a
tick whose guard passes and whose completion hook fails does NOT leave the
active slot and the initialized flag unchanged — the redirect moves the
machine from slot 0 to slot 1 and clears the flag. -/
theorem done_failure_claim_counterexample :
    (mDoneFailRedir.runT).map
        (fun p => (p.1.active_state, p.1.active_state_initialized))
      = some (some 1, false) := rfl

/-- The same machine with no recovery pair installed. -/
def mDoneFail : StateMachine Nat :=
  { mDoneFailRedir with error := none }

/-- Witness for the amended C8 on `mDoneFail`. -/
theorem done_failure_retries_unless_redirected_witness :
    ∃ tr, mDoneFail.runT = some
        (({ mDoneFail with data := 11, active_state_initialized := true }).do_error_callback
           FsmError.TransitionIsEmpty, tr) ∧
      doneCols tr = [1] ∧
      (mDoneFail.error = none →
        (({ mDoneFail with data := 11, active_state_initialized := true }).do_error_callback
            FsmError.TransitionIsEmpty).active_state = mDoneFail.active_state ∧
        (({ mDoneFail with data := 11, active_state_initialized := true }).do_error_callback
            FsmError.TransitionIsEmpty).active_state_initialized = true) :=
  done_failure_retries_unless_redirected mDoneFail 0 sOk 1 11 1 tFail 11
    FsmError.TransitionIsEmpty rfl rfl rfl rfl rfl rfl

/-! C5: exec failure with no recovery hooks. -/

/-- Equation for a tick whose init (if needed) succeeds but whose exec
fails. -/
theorem runT_exec_fail (m : StateMachine T) (i : Nat) (s : State T)
    (d1 d2 : T) (e : FsmError)
    (h1 : m.active_state = some i) (h2 : m.state i = .ok s)
    (h3 : (if m.active_state_initialized then (m.data, (none : Option FsmError))
           else s.do_init m.data) = (d1, none))
    (h4 : s.do_exec d1 = (d2, some e)) :
    m.runT = some
      (({ m with data := d2, active_state_initialized := true }).do_error_callback e,
       (if m.active_state_initialized then [] else [Event.initEv i])
         ++ [Event.execEv i, Event.errEv e]) := by
  simp only [StateMachine.runT, h1, h2]
  rw [h3]
  dsimp only
  rw [h4]

/-- Auxiliary induction for C5: once the failing state is marked
initialized, every further tick only re-runs exec (which fails), leaving
the machine in place and evaluating no guard. -/
theorem runTN_exec_fail_aux (k : Nat) :
    ∀ (m : StateMachine T) (i : Nat) (s : State T),
      m.error = none → m.active_state = some i → m.state i = .ok s →
      m.active_state_initialized = true →
      (∀ d, ((s.do_exec d).2).isSome = true) →
      ∃ m' tr, m.runTN k = some (m', tr) ∧
        tr.count (Event.initEv i) = 0 ∧
        tr.count (Event.execEv i) = k ∧
        checkCols tr = [] ∧
        m'.active_state = some i := by
  induction k with
  | zero =>
    intro m i s herr h1 h2 hflag hexec
    exact ⟨m, [], rfl, rfl, rfl, rfl, h1⟩
  | succ k ih =>
    intro m i s herr h1 h2 hflag hexec
    rcases hsd : s.do_exec m.data with ⟨d2, e?⟩
    have hE := hexec m.data
    rw [hsd] at hE
    cases e? with
    | none => simp at hE
    | some e =>
      have htick := runT_exec_fail m i s m.data d2 e h1 h2
        (by rw [hflag]; simp) hsd
      rw [do_error_callback_none
        ({ m with data := d2, active_state_initialized := true }) e herr] at htick
      have hnext := ih { m with data := d2, active_state_initialized := true }
        i s herr h1 h2 rfl hexec
      obtain ⟨m', tr, hrun, hcinit, hcexec, hck, hact⟩ := hnext
      refine ⟨m', (if m.active_state_initialized then []
          else [Event.initEv i]) ++ [Event.execEv i, Event.errEv e] ++ tr,
        ?_, ?_, ?_, ?_, hact⟩
      · show m.runTN (k + 1) = _
        unfold StateMachine.runTN
        rw [htick]
        dsimp only
        rw [hrun]
      · simp [hflag, List.count_cons, List.count_append, hcinit]
      · simp [hflag, List.count_cons, List.count_append, hcexec]
      · rw [checkCols_append, checkCols_append]
        simp [hflag, checkCols, hck]

/-- C5 (amended): for a machine with no recovery pair, whose active state's
init hook always succeeds and whose exec hook always fails, and whose
initialized flag is false when ticking starts (a freshly activated machine):
over `n` ticks init runs exactly once — on the first tick —, exec runs on
every tick, no transition guard is ever evaluated, and the active slot never
changes. -/
theorem exec_failure_stalls_without_recovery (m : StateMachine T) (i : Nat)
    (s : State T)
    (herr : m.error = none)
    (h1 : m.active_state = some i) (h2 : m.state i = .ok s)
    (hflag : m.active_state_initialized = false)
    (hinit : ∀ d, ((s.do_init d)).2 = none)
    (hexec : ∀ d, ((s.do_exec d).2).isSome = true)
    (n : Nat) :
    ∃ m' tr, m.runTN n = some (m', tr) ∧
      tr.count (Event.initEv i) = min 1 n ∧
      tr.count (Event.execEv i) = n ∧
      checkCols tr = [] ∧
      m'.active_state = some i := by
  cases n with
  | zero => exact ⟨m, [], rfl, rfl, rfl, rfl, h1⟩
  | succ k =>
    rcases hid : s.do_init m.data with ⟨d1, ei⟩
    have hI := hinit m.data
    rw [hid] at hI
    subst hI
    rcases hsd : s.do_exec d1 with ⟨d2, e?⟩
    have hE := hexec d1
    rw [hsd] at hE
    cases e? with
    | none => simp at hE
    | some e =>
      have htick := runT_exec_fail m i s d1 d2 e h1 h2
        (by rw [hflag]; simpa using hid) hsd
      rw [do_error_callback_none
        ({ m with data := d2, active_state_initialized := true }) e herr] at htick
      have hnext := runTN_exec_fail_aux k
        { m with data := d2, active_state_initialized := true }
        i s herr h1 h2 rfl hexec
      obtain ⟨m', tr, hrun, hcinit, hcexec, hck, hact⟩ := hnext
      refine ⟨m', [Event.initEv i] ++ [Event.execEv i, Event.errEv e] ++ tr,
        ?_, ?_, ?_, ?_, hact⟩
      · show m.runTN (k + 1) = _
        unfold StateMachine.runTN
        rw [htick]
        dsimp only
        rw [hrun]
        rw [hflag]
        simp [List.append_assoc]
      · simp [List.count_cons, List.count_append, hcinit]
      · simp [List.count_cons, List.count_append, hcexec]
      · rw [checkCols_append, checkCols_append]
        simp [checkCols, hck]

/-- Machine whose slot 0 holds the exec-failing state, freshly activated. -/
def mStallW : StateMachine Nat :=
  { data := 0
    states := [some sFail, some sOk]
    num_states := 2
    transitions := [[none, none], [none, none]]
    active_state := some 0
    active_state_initialized := false
    error := none }

/-- Witness for the amended C5 on `mStallW` over two ticks. -/
theorem exec_failure_stalls_without_recovery_witness :
    ∃ m' tr, mStallW.runTN 2 = some (m', tr) ∧
      tr.count (Event.initEv 0) = min 1 2 ∧
      tr.count (Event.execEv 0) = 2 ∧
      checkCols tr = [] ∧
      m'.active_state = some 0 :=
  exec_failure_stalls_without_recovery mStallW 0 sFail rfl rfl rfl rfl
    (fun _ => rfl) (fun _ => rfl) 2

/-- Machine with slot 0 fine and slot 1 holding the exec-failing state: used
to refute C5 as stated (the initialized flag survives `set_active_state`). -/
def mStall : StateMachine Nat :=
  { data := 0
    states := [some sOk, some sFail]
    num_states := 2
    transitions := [[none, none], [none, none]]
    active_state := some 0
    active_state_initialized := false
    error := none }

/-- One full tick on slot 0, then `set_active_state 1`. -/
def mStallMid : Option (StateMachine Nat) :=
  (mStall.runT).bind (fun p => (p.1.set_active_state 1).toOption)

/-- Counterexample to C5 as stated: this machine has no recovery hooks, its
active state's init succeeds and its exec always fails, and the ticks follow
a successful `set_active_state`; yet over three ticks the init hook of the
active state runs zero times, not exactly once, because the initialized flag
was still true from the previous slot's tick. -/
theorem exec_failure_claim_counterexample :
    (mStallMid.bind (fun m2 => m2.runTN 3)).map
        (fun p => p.2.count (Event.initEv 1)) = some 0 := rfl

/-! C1: when the initialized flag is (and is not) reset. -/

/-- Equation for a tick whose init hook fails. -/
theorem runT_init_fail (m : StateMachine T) (i : Nat) (s : State T)
    (d : T) (e : FsmError)
    (h1 : m.active_state = some i) (h2 : m.state i = .ok s)
    (hflag : m.active_state_initialized = false)
    (hfail : s.do_init m.data = (d, some e)) :
    m.runT = some (({ m with data := d }).do_error_callback e,
                   [Event.initEv i, Event.errEv e]) := by
  simp only [StateMachine.runT, h1, h2, hflag]
  simp only [Bool.false_eq_true, if_false, hfail]

/-- Whenever one tick changes the active slot — by a fired transition or by
an error-recovery redirect — the resulting initialized flag is false. -/
theorem runT_active_change_flag (m m' : StateMachine T) (tr : List Event)
    (hrun : m.runT = some (m', tr))
    (hne : m'.active_state ≠ m.active_state) :
    m'.active_state_initialized = false := by
  rcases hact : m.active_state with _ | i
  · simp only [StateMachine.runT, hact] at hrun
    simp only [Option.some.injEq, Prod.mk.injEq] at hrun
    obtain ⟨hm, _⟩ := hrun
    subst hm
    exact absurd rfl hne
  · rw [hact] at hne
    simp only [StateMachine.runT, hact] at hrun
    rcases hs : m.state i with e1 | s
    · rw [hs] at hrun
      simp at hrun
    · rw [hs] at hrun
      dsimp only at hrun
      rcases hscrut : (if m.active_state_initialized
          then (m.data, (none : Option FsmError))
          else s.do_init m.data) with ⟨d1, ei⟩
      rw [hscrut] at hrun
      cases ei with
      | some e =>
        dsimp only at hrun
        simp only [Option.some.injEq, Prod.mk.injEq] at hrun
        obtain ⟨hm, _⟩ := hrun
        subst hm
        rcases do_error_callback_active_or ({ m with data := d1, active_state := some i }) e with h | h
        · exact absurd h hne
        · exact h
      | none =>
        dsimp only at hrun
        rcases hex : s.do_exec d1 with ⟨d2, ee⟩
        rw [hex] at hrun
        cases ee with
        | some e =>
          dsimp only at hrun
          simp only [Option.some.injEq, Prod.mk.injEq] at hrun
          obtain ⟨hm, _⟩ := hrun
          subst hm
          rcases do_error_callback_active_or ({ m with data := d2, active_state := some i, active_state_initialized := true }) e with h | h
          · exact absurd h hne
          · exact h
        | none =>
          dsimp only at hrun
          rw [StateMachine.active_transitions] at hrun
          dsimp only at hrun
          by_cases hge : i ≥ m.num_states
          · rw [if_pos hge] at hrun
            simp at hrun
          · rw [if_neg hge] at hrun
            dsimp only at hrun
            rcases hscan : scanTransitions (m.transitions.getD i []) 0 d2
              with ⟨dst, d3, trs⟩ | ⟨e3, d3, trs⟩ | ⟨d3, trs⟩
            · rw [hscan] at hrun
              dsimp only at hrun
              simp only [Option.some.injEq, Prod.mk.injEq] at hrun
              obtain ⟨hm, _⟩ := hrun
              subst hm
              rfl
            · rw [hscan] at hrun
              dsimp only at hrun
              simp only [Option.some.injEq, Prod.mk.injEq] at hrun
              obtain ⟨hm, _⟩ := hrun
              subst hm
              rcases do_error_callback_active_or ({ m with data := d3, active_state := some i, active_state_initialized := true }) e3 with h | h
              · exact absurd h hne
              · exact h
            · rw [hscan] at hrun
              dsimp only at hrun
              simp only [Option.some.injEq, Prod.mk.injEq] at hrun
              obtain ⟨hm, _⟩ := hrun
              subst hm
              exact absurd rfl hne

/-- C1 (amended): the initialized flag is forced false when the active slot
changes during `run` (a fired transition or an applied error-recovery
redirect), but `set_active_state` leaves the flag untouched; consequently,
after a successful `set_active_state i` the next `run` starts with state
`i`'s init hook exactly when the flag is false at that point (as on a
freshly constructed or freshly redirected machine). -/
theorem initialized_flag_reset_on_slot_change (T : Type) :
    (∀ (m m' : StateMachine T) (tr : List Event),
        m.runT = some (m', tr) → m'.active_state ≠ m.active_state →
        m'.active_state_initialized = false) ∧
    (∀ (m : StateMachine T) (e : FsmError),
        (m.do_error_callback e).active_state ≠ m.active_state →
        (m.do_error_callback e).active_state_initialized = false) ∧
    (∀ (m : StateMachine T) (i : Nat) (m' : StateMachine T),
        m.set_active_state i = .ok m' →
        m'.active_state = some i ∧
        m'.active_state_initialized = m.active_state_initialized) ∧
    (∀ (m : StateMachine T) (i : Nat) (m' m'' : StateMachine T)
        (tr : List Event),
        m.set_active_state i = .ok m' → m'.active_state_initialized = false →
        m'.runT = some (m'', tr) → tr.head? = some (Event.initEv i)) := by
  refine ⟨runT_active_change_flag, ?_, ?_, ?_⟩
  · intro m e hne
    rcases do_error_callback_active_or m e with h | h
    · exact absurd h hne
    · exact h
  · intro m i m' h
    unfold StateMachine.set_active_state at h
    rcases hs : m.state i with e1 | s
    · rw [hs] at h
      simp at h
    · rw [hs] at h
      dsimp only at h
      simp only [Except.ok.injEq] at h
      subst h
      exact ⟨rfl, rfl⟩
  · intro m i m' m'' tr hset hflag' hrun
    unfold StateMachine.set_active_state at hset
    rcases hs : m.state i with e1 | s
    · rw [hs] at hset
      simp at hset
    · rw [hs] at hset
      dsimp only at hset
      simp only [Except.ok.injEq] at hset
      subst hset
      have hs' : ({ m with active_state := some i } : StateMachine T).state i
          = .ok s := hs
      have hflag2 : m.active_state_initialized = false := hflag'
      rcases hd : s.do_init
          ({ m with active_state := some i } : StateMachine T).data with ⟨d, ei⟩
      cases ei with
      | some e =>
        rw [runT_init_fail _ i s d e rfl hs' hflag' hd] at hrun
        simp only [Option.some.injEq, Prod.mk.injEq] at hrun
        obtain ⟨_, ht⟩ := hrun
        rw [← ht]
        rfl
      | none =>
        rcases he : s.do_exec d with ⟨d2, ee⟩
        cases ee with
        | some e2 =>
          rw [runT_exec_fail _ i s d d2 e2 rfl hs'
            (by rw [hflag']; simpa using hd) he] at hrun
          simp only [Option.some.injEq, Prod.mk.injEq] at hrun
          obtain ⟨_, ht⟩ := hrun
          rw [← ht]
          simp [hflag2]
        | none =>
          have heq := runT_exec_ok ({ m with active_state := some i }) i s d d2
            rfl hs' (by rw [hflag']; simpa using hd) he
          rcases hscan : scanTransitions
              (({ m with active_state := some i } :
                StateMachine T).transitions.getD i []) 0 d2
            with ⟨dst, d3, trs⟩ | ⟨e3, d3, trs⟩ | ⟨d3, trs⟩ <;>
            rw [hscan] at heq <;> dsimp only at heq <;> rw [heq] at hrun <;>
            simp only [Option.some.injEq, Prod.mk.injEq] at hrun <;>
            obtain ⟨_, ht⟩ := hrun <;> rw [← ht] <;> simp [hflag2]

/-- One full tick of `mTwo` on slot 0, then `set_active_state 1`. -/
def mFlagMid : Option (StateMachine Nat) :=
  (mTwo.runT).bind (fun p => (p.1.set_active_state 1).toOption)

/-- Counterexample to C1 as stated: after a tick completes on slot 0 the
flag is true; a successful `set_active_state 1` then changes the active slot
but leaves the flag true, and the next tick's trace is `[execEv 1]` — state
1's init hook is never invoked before its exec hook. -/
theorem set_active_keeps_initialized_flag :
    (mFlagMid.map (fun m2 => (m2.active_state, m2.active_state_initialized)))
        = some (some 1, true) ∧
    ((mFlagMid.bind (fun m2 => m2.runT)).map (fun p => p.2))
        = some [Event.execEv 1] :=
  ⟨rfl, rfl⟩

/-- Witness for the amended C1: on `mTwo` (flag still false),
`set_active_state 1` keeps the flag and the next tick's trace starts with
state 1's init event. -/
theorem initialized_flag_reset_on_slot_change_witness :
    (({ mTwo with active_state := some 1 } : StateMachine Nat).active_state
          = some 1 ∧
      ({ mTwo with active_state := some 1 } :
          StateMachine Nat).active_state_initialized
          = mTwo.active_state_initialized) ∧
    ([Event.initEv 1, Event.execEv 1] : List Event).head?
        = some (Event.initEv 1) :=
  ⟨(initialized_flag_reset_on_slot_change Nat).2.2.1 mTwo 1 _ rfl,
   (initialized_flag_reset_on_slot_change Nat).2.2.2 mTwo 1 _ _ _ rfl rfl rfl⟩

/-! C6 and C10: structural invariants of the machine. -/

/-- Structural invariant of API-built machines: the occupied count is at
most the capacity, the transition matrix is capacity × capacity, every slot
below the occupied count is occupied and every slot from the occupied count
up is empty. -/
def StateMachine.Inv (m : StateMachine T) : Prop :=
  m.num_states ≤ m.states.length ∧
  m.transitions.length = m.states.length ∧
  (∀ row ∈ m.transitions, row.length = m.states.length) ∧
  (∀ i ∈ List.range m.num_states, (m.states.getD i none).isSome = true) ∧
  (∀ i ∈ List.range m.states.length, m.num_states ≤ i →
    (m.states.getD i none).isNone = true)

/-- Every transition stored in the matrix has its `dst` field below the
occupied count (as holds when registration indices match the fields). -/
def StateMachine.TransDst (m : StateMachine T) : Prop :=
  ∀ row ∈ m.transitions, ∀ o ∈ row, ∀ t ∈ o.toList, t.dst < m.num_states

/-- The active-slot pointer, when set, names an occupied slot with index
below the occupied count. -/
def StateMachine.ActiveOk (m : StateMachine T) : Prop :=
  ∀ i ∈ m.active_state.toList,
    i < m.num_states ∧ (m.states.getD i none).isSome = true

theorem getD_set_self {α : Type} (l : List α) (i : Nat) (a d : α)
    (h : i < l.length) : (l.set i a).getD i d = a := by
  rw [List.getD_eq_getElem?_getD, List.getElem?_set_self h]
  rfl

theorem getD_set_ne {α : Type} (l : List α) (i j : Nat) (a d : α)
    (h : i ≠ j) : (l.set i a).getD j d = l.getD j d := by
  rw [List.getD_eq_getElem?_getD, List.getElem?_set_ne h,
    ← List.getD_eq_getElem?_getD]

theorem getD_replicate {α : Type} (n i : Nat) (x d : α) :
    (List.replicate n x).getD i d = if i < n then x else d := by
  rw [List.getD_eq_getElem?_getD, List.getElem?_replicate]
  split <;> rfl

/-- `findStateIdx` only returns the index of an occupied slot inside the
scanned list. -/
theorem findStateIdx_spec (l : List (Option (State T))) :
    ∀ (name : String) (k j : Nat), findStateIdx l name k = some j →
      k ≤ j ∧ j - k < l.length ∧ (l.getD (j - k) none).isSome = true := by
  induction l with
  | nil => intro name k j h; simp [findStateIdx] at h
  | cons o rest ih =>
    intro name k j h
    cases o with
    | none =>
      obtain ⟨ha, hb, hc⟩ := ih name (k + 1) j (by simpa [findStateIdx] using h)
      refine ⟨by omega, by simp only [List.length_cons]; omega, ?_⟩
      have hjk : j - k = (j - (k + 1)) + 1 := by omega
      rw [hjk]
      simpa using hc
    | some s =>
      by_cases hn : name = s.name
      · simp [findStateIdx, hn] at h
        subst h
        exact ⟨Nat.le_refl _, by simp, by simp⟩
      · obtain ⟨ha, hb, hc⟩ := ih name (k + 1) j
          (by simpa [findStateIdx, hn] using h)
        refine ⟨by omega, by simp only [List.length_cons]; omega, ?_⟩
        have hjk : j - k = (j - (k + 1)) + 1 := by omega
        rw [hjk]
        simpa using hc

/-- Under the structural invariant, a successful `state_by_name` lookup
names an occupied slot below the occupied count. -/
theorem state_by_name_lt (m : StateMachine T) (n : String) (j : Nat)
    (hi : m.Inv) (h : m.state_by_name n = some j) :
    j < m.num_states ∧ (m.states.getD j none).isSome = true := by
  obtain ⟨_, hlen, hsome⟩ := findStateIdx_spec m.states n 0 j h
  simp only [Nat.sub_zero] at hlen hsome
  obtain ⟨i1, i2, i3, i4, i5⟩ := hi
  refine ⟨?_, hsome⟩
  by_contra hge
  push_neg at hge
  have hnone := i5 j (by simp only [List.mem_range]; exact hlen) hge
  rw [Option.isNone_iff_eq_none] at hnone
  rw [hnone] at hsome
  simp at hsome

theorem new_Inv (data : T) (C : Nat) : (StateMachine.new data C).Inv := by
  refine ⟨by simp [StateMachine.new], by simp [StateMachine.new], ?_, ?_, ?_⟩
  · intro row hrow
    simp only [StateMachine.new] at hrow ⊢
    rw [List.eq_of_mem_replicate hrow]
    simp
  · intro i hi
    simp [StateMachine.new] at hi
  · intro i hi hge
    simp [StateMachine.new, getD_replicate]

theorem new_TransDst (data : T) (C : Nat) : (StateMachine.new data C).TransDst := by
  intro row hrow o ho t ht
  simp only [StateMachine.new] at hrow
  rw [List.eq_of_mem_replicate hrow] at ho
  rw [List.eq_of_mem_replicate ho] at ht
  simp [Option.toList] at ht

theorem new_ActiveOk (data : T) (C : Nat) : (StateMachine.new data C).ActiveOk := by
  intro i hi
  simp [StateMachine.new, Option.toList] at hi

/-- Elimination of a successful `add_state`. -/
theorem add_state_ok_elim (m : StateMachine T) (s : State T)
    (m' : StateMachine T) (j : Nat) (h : m.add_state s = .ok (m', j)) :
    m.num_states < m.states.length ∧
    m' = { m with states := m.states.set m.num_states (some s),
                  num_states := m.num_states + 1 } ∧
    j = m.num_states := by
  unfold StateMachine.add_state at h
  split at h
  · cases h
  · rename_i hlt
    simp only [Except.ok.injEq, Prod.mk.injEq] at h
    exact ⟨by omega, h.1.symm, h.2.symm⟩

theorem add_state_preserves (m : StateMachine T) (s : State T)
    (m' : StateMachine T) (j : Nat) (h : m.add_state s = .ok (m', j)) :
    (m.Inv → m'.Inv) ∧ (m.TransDst → m'.TransDst) ∧
    (m.ActiveOk → m'.ActiveOk) := by
  obtain ⟨hlt, hm', hj⟩ := add_state_ok_elim m s m' j h
  subst hm'
  refine ⟨?_, ?_, ?_⟩
  · rintro ⟨i1, i2, i3, i4, i5⟩
    refine ⟨by simp only [List.length_set]; omega, by simpa using i2,
      by simpa using i3, ?_, ?_⟩
    · intro i hi
      simp only [List.mem_range] at hi
      by_cases hcase : i = m.num_states
      · subst hcase
        rw [getD_set_self _ _ _ _ hlt]
        rfl
      · rw [getD_set_ne _ _ _ _ _ (Ne.symm hcase)]
        exact i4 i (by simp only [List.mem_range]; omega)
    · intro i hi hge
      have hge2 : m.num_states + 1 ≤ i := hge
      simp only [List.length_set, List.mem_range] at hi
      rw [getD_set_ne _ _ _ _ _ (by omega : m.num_states ≠ i)]
      exact i5 i (by simp only [List.mem_range]; exact hi) (by omega)
  · intro htd row hrow o ho t ht
    exact Nat.lt_succ_of_lt (htd row hrow o ho t ht)
  · intro hao i hi
    obtain ⟨h1, h2⟩ := hao i hi
    refine ⟨Nat.lt_succ_of_lt h1, ?_⟩
    rw [getD_set_ne _ _ _ _ _ (by omega : m.num_states ≠ i)]
    exact h2

/-- Elimination of a successful `add_transition`. -/
theorem add_transition_ok_elim (m : StateMachine T) (t : Transition T)
    (src dst : Nat) (m' : StateMachine T)
    (h : m.add_transition t src dst = .ok m') :
    src < m.num_states ∧ dst < m.num_states ∧ src ≠ dst ∧
    m' = { m with transitions := m.transitions.set src ((m.transitions.getD src []).set dst (some t)) } := by
  unfold StateMachine.add_transition at h
  split at h
  · cases h
  · split at h
    · cases h
    · rename_i hno hne
      push_neg at hno
      simp only [Except.ok.injEq] at h
      exact ⟨hno.1, hno.2, hne, h.symm⟩

theorem add_transition_preserves (m : StateMachine T) (t : Transition T)
    (src dst : Nat) (m' : StateMachine T)
    (h : m.add_transition t src dst = .ok m') :
    (m.Inv → m'.Inv) ∧
    (m.Inv → m.TransDst → t.dst < m.num_states → m'.TransDst) ∧
    (m.ActiveOk → m'.ActiveOk) := by
  obtain ⟨h1, h2, h3, hm'⟩ := add_transition_ok_elim m t src dst m' h
  subst hm'
  refine ⟨?_, ?_, ?_⟩
  · rintro ⟨i1, i2, i3, i4, i5⟩
    refine ⟨i1, by simpa using i2, ?_, i4, i5⟩
    intro row hrow
    rcases List.mem_or_eq_of_mem_set hrow with hr | hr
    · exact i3 row hr
    · subst hr
      rw [List.length_set]
      have hsrc : src < m.transitions.length := by omega
      rw [List.getD_eq_getElem _ _ hsrc]
      exact i3 _ (List.getElem_mem hsrc)
  · rintro ⟨i1, i2, i3, i4, i5⟩ htd hdst row hrow o ho t' ht'
    rcases List.mem_or_eq_of_mem_set hrow with hr | hr
    · exact htd row hr o ho t' ht'
    · subst hr
      rcases List.mem_or_eq_of_mem_set ho with hoo | hoo
      · have hsrc : src < m.transitions.length := by omega
        rw [List.getD_eq_getElem _ _ hsrc] at hoo
        exact htd _ (List.getElem_mem hsrc) o hoo t' ht'
      · subst hoo
        simp only [Option.toList, List.mem_singleton] at ht'
        subst ht'
        exact hdst
  · intro hao i hi
    exact hao i hi

theorem set_active_preserves (m : StateMachine T) (i : Nat)
    (m' : StateMachine T) (h : m.set_active_state i = .ok m') :
    (m.Inv → m'.Inv) ∧ (m.TransDst → m'.TransDst) ∧ m'.ActiveOk := by
  unfold StateMachine.set_active_state at h
  rcases hs : m.state i with e1 | s
  · rw [hs] at h
    simp at h
  · rw [hs] at h
    dsimp only at h
    simp only [Except.ok.injEq] at h
    subst h
    have hlt := state_ok_lt m i s hs
    have hg := state_ok_getD m i s hs
    refine ⟨fun x => x, fun x => x, ?_⟩
    intro j hj
    simp only [Option.toList, List.mem_singleton] at hj
    subst hj
    exact ⟨hlt, by rw [hg]; rfl⟩

/-- The error-recovery dispatch preserves the structural invariants, and —
given them — the active-slot invariant. -/
theorem do_error_callback_inv (m : StateMachine T) (e : FsmError) :
    (m.Inv → (m.do_error_callback e).Inv) ∧
    (m.TransDst → (m.do_error_callback e).TransDst) ∧
    (m.Inv → m.ActiveOk → (m.do_error_callback e).ActiveOk) := by
  obtain ⟨hstates, hnum, htrans, herr⟩ := do_error_callback_preserves m e
  refine ⟨?_, ?_, ?_⟩
  · intro hi
    unfold StateMachine.Inv at hi ⊢
    rw [hstates, hnum, htrans]
    exact hi
  · intro ht
    unfold StateMachine.TransDst at ht ⊢
    rw [hnum, htrans]
    exact ht
  · intro hi hao
    unfold StateMachine.do_error_callback
    split
    · exact hao
    · split
      · exact hao
      · split
        · rename_i hlt
          intro j hj
          simp only [Option.toList, List.mem_singleton] at hj
          subst hj
          obtain ⟨i1, i2, i3, i4, i5⟩ := hi
          exact ⟨hlt, i4 _ (by simp only [List.mem_range]; exact hlt)⟩
        · exact hao
      · split
        · rename_i jf hjf
          intro j' hj'
          simp only [Option.toList, List.mem_singleton] at hj'
          subst hj'
          exact state_by_name_lt m _ j' hi hjf
        · exact hao

/-- A fired scan result comes from a transition stored in the row, and the
fired destination is that transition's own `dst` field. -/
theorem scanTransitions_fired_mem (row : List (Option (Transition T))) :
    ∀ (col : Nat) (d : T) (dst : Nat) (d' : T) (tr : List Event),
      scanTransitions row col d = .fired dst d' tr →
      ∃ t, some t ∈ row ∧ t.dst = dst := by
  induction row with
  | nil =>
    intro col d dst d' tr h
    exact ScanRes.noConfusion h
  | cons o rest ih =>
    intro col d dst d' tr h
    cases o with
    | none =>
      obtain ⟨t, htm, htd⟩ := ih (col + 1) d dst d' tr h
      exact ⟨t, List.mem_cons_of_mem _ htm, htd⟩
    | some t0 =>
      by_cases hc : t0.do_check d
      · simp only [scanTransitions, hc, if_true] at h
        rcases hdd : t0.do_done d with ⟨dd, ee⟩
        rw [hdd] at h
        cases ee with
        | some e =>
          dsimp only at h
          exact ScanRes.noConfusion h
        | none =>
          dsimp only at h
          simp only [ScanRes.fired.injEq] at h
          exact ⟨t0, List.mem_cons_self _ _, h.1⟩
      · simp only [scanTransitions, hc, Bool.false_eq_true, if_false] at h
        rcases hs2 : scanTransitions rest (col + 1) d
          with ⟨dst2, dd2, tr2⟩ | ⟨e2, dd2, tr2⟩ | ⟨dd2, tr2⟩ <;>
          rw [hs2] at h <;> dsimp only [ScanRes.consEv] at h
        · simp only [ScanRes.fired.injEq] at h
          obtain ⟨t, htm, htd⟩ := ih (col + 1) d dst2 dd2 tr2 hs2
          exact ⟨t, List.mem_cons_of_mem _ htm, by rw [htd, h.1]⟩
        · exact ScanRes.noConfusion h
        · exact ScanRes.noConfusion h

/-- One tick never touches the slot array, the occupied count, the
transition matrix or the installed recovery pair. -/
theorem runT_preserves (m m' : StateMachine T) (tr : List Event)
    (hrun : m.runT = some (m', tr)) :
    m'.states = m.states ∧ m'.num_states = m.num_states ∧
    m'.transitions = m.transitions ∧ m'.error = m.error := by
  rcases hact : m.active_state with _ | i
  · simp only [StateMachine.runT, hact] at hrun
    simp only [Option.some.injEq, Prod.mk.injEq] at hrun
    obtain ⟨hm, _⟩ := hrun
    subst hm
    exact ⟨rfl, rfl, rfl, rfl⟩
  · simp only [StateMachine.runT, hact] at hrun
    rcases hs : m.state i with e1 | s
    · rw [hs] at hrun
      simp at hrun
    · rw [hs] at hrun
      dsimp only at hrun
      rcases hscrut : (if m.active_state_initialized
          then (m.data, (none : Option FsmError))
          else s.do_init m.data) with ⟨d1, ei⟩
      rw [hscrut] at hrun
      cases ei with
      | some e =>
        dsimp only at hrun
        simp only [Option.some.injEq, Prod.mk.injEq] at hrun
        obtain ⟨hm, _⟩ := hrun
        subst hm
        exact do_error_callback_preserves _ e
      | none =>
        dsimp only at hrun
        rcases hex : s.do_exec d1 with ⟨d2, ee⟩
        rw [hex] at hrun
        cases ee with
        | some e =>
          dsimp only at hrun
          simp only [Option.some.injEq, Prod.mk.injEq] at hrun
          obtain ⟨hm, _⟩ := hrun
          subst hm
          exact do_error_callback_preserves _ e
        | none =>
          dsimp only at hrun
          rw [StateMachine.active_transitions] at hrun
          dsimp only at hrun
          by_cases hge : i ≥ m.num_states
          · rw [if_pos hge] at hrun
            simp at hrun
          · rw [if_neg hge] at hrun
            dsimp only at hrun
            rcases hscan : scanTransitions (m.transitions.getD i []) 0 d2
              with ⟨dst, d3, trs⟩ | ⟨e3, d3, trs⟩ | ⟨d3, trs⟩ <;>
              rw [hscan] at hrun <;> dsimp only at hrun <;>
              simp only [Option.some.injEq, Prod.mk.injEq] at hrun <;>
              obtain ⟨hm, _⟩ := hrun <;> subst hm
            · exact ⟨rfl, rfl, rfl, rfl⟩
            · exact do_error_callback_preserves _ e3
            · exact ⟨rfl, rfl, rfl, rfl⟩

/-- One tick preserves the active-slot invariant, provided the structural
invariant holds and every stored transition's `dst` field is in range. -/
theorem runT_ActiveOk (m m' : StateMachine T) (tr : List Event)
    (hrun : m.runT = some (m', tr)) (hi : m.Inv) (ht : m.TransDst)
    (hao : m.ActiveOk) : m'.ActiveOk := by
  rcases hact : m.active_state with _ | i
  · simp only [StateMachine.runT, hact] at hrun
    simp only [Option.some.injEq, Prod.mk.injEq] at hrun
    obtain ⟨hm, _⟩ := hrun
    subst hm
    exact hao
  · have hone : ∀ j ∈ (some i : Option Nat).toList,
        j < m.num_states ∧ (m.states.getD j none).isSome = true :=
      fun j hj => hao j (by rw [hact]; exact hj)
    simp only [StateMachine.runT, hact] at hrun
    rcases hs : m.state i with e1 | s
    · rw [hs] at hrun
      simp at hrun
    · rw [hs] at hrun
      dsimp only at hrun
      rcases hscrut : (if m.active_state_initialized
          then (m.data, (none : Option FsmError))
          else s.do_init m.data) with ⟨d1, ei⟩
      rw [hscrut] at hrun
      cases ei with
      | some e =>
        dsimp only at hrun
        simp only [Option.some.injEq, Prod.mk.injEq] at hrun
        obtain ⟨hm, _⟩ := hrun
        subst hm
        exact (do_error_callback_inv _ e).2.2 hi hone
      | none =>
        dsimp only at hrun
        rcases hex : s.do_exec d1 with ⟨d2, ee⟩
        rw [hex] at hrun
        cases ee with
        | some e =>
          dsimp only at hrun
          simp only [Option.some.injEq, Prod.mk.injEq] at hrun
          obtain ⟨hm, _⟩ := hrun
          subst hm
          exact (do_error_callback_inv _ e).2.2 hi hone
        | none =>
          dsimp only at hrun
          rw [StateMachine.active_transitions] at hrun
          dsimp only at hrun
          by_cases hge : i ≥ m.num_states
          · rw [if_pos hge] at hrun
            simp at hrun
          · rw [if_neg hge] at hrun
            dsimp only at hrun
            rcases hscan : scanTransitions (m.transitions.getD i []) 0 d2
              with ⟨dst, d3, trs⟩ | ⟨e3, d3, trs⟩ | ⟨d3, trs⟩ <;>
              rw [hscan] at hrun <;> dsimp only at hrun <;>
              simp only [Option.some.injEq, Prod.mk.injEq] at hrun <;>
              obtain ⟨hm, _⟩ := hrun <;> subst hm
            · intro j hj
              simp only [Option.toList, List.mem_singleton] at hj
              subst hj
              obtain ⟨t0, htm, htd⟩ := scanTransitions_fired_mem
                (m.transitions.getD i []) 0 d2 _ d3 trs hscan
              obtain ⟨i1, i2, i3, i4, i5⟩ := hi
              have hlti : i < m.num_states := state_ok_lt m i s hs
              have hrowlen : i < m.transitions.length := by omega
              have hrowmem : m.transitions.getD i [] ∈ m.transitions := by
                rw [List.getD_eq_getElem _ _ hrowlen]
                exact List.getElem_mem hrowlen
              have hdst := ht _ hrowmem (some t0) htm t0 (by simp [Option.toList])
              rw [htd] at hdst
              exact ⟨hdst, i4 _ (by simp only [List.mem_range]; exact hdst)⟩
            · exact (do_error_callback_inv _ e3).2.2 hi hone
            · exact hone

instance (m : StateMachine T) : Decidable m.Inv := by
  unfold StateMachine.Inv
  infer_instance

instance (m : StateMachine T) : Decidable m.TransDst := by
  unfold StateMachine.TransDst
  infer_instance

instance (m : StateMachine T) : Decidable m.ActiveOk := by
  unfold StateMachine.ActiveOk
  infer_instance

/-- C6 (amended): provided every registered transition's `dst` field is
below the occupied count (as when registration indices match the fields,
e.g. through the `new_transition!` macro), each operation that can set the
active-slot pointer — `set_active_state`, the error-recovery redirect, and
one tick of `run` — leaves it naming an occupied slot with index below the
occupied count. -/
theorem active_slot_in_range_preserved (m : StateMachine T)
    (hInv : m.Inv) (hdst : m.TransDst) (hact : m.ActiveOk) :
    (∀ i m', m.set_active_state i = .ok m' → m'.ActiveOk) ∧
    (∀ e, (m.do_error_callback e).ActiveOk) ∧
    (∀ m' tr, m.runT = some (m', tr) → m'.ActiveOk) :=
  ⟨fun i m' h => (set_active_preserves m i m' h).2.2,
   fun e => (do_error_callback_inv m e).2.2 hInv hact,
   fun m' tr h => runT_ActiveOk m m' tr h hInv hdst hact⟩

/-- The rogue machine, built purely through the public API: two states and
the transition `tRogue` — whose own `dst` field is 5 — registered at the
valid cell (0, 1), then slot 0 activated. -/
def mRogue : Option (StateMachine Nat) :=
  ((StateMachine.new (0 : Nat) 2).add_state sOk).toOption.bind (fun p =>
    (p.1.add_state sOk2).toOption.bind (fun q =>
      (q.1.add_transition tRogue 0 1).toOption.bind (fun m3 =>
        (m3.set_active_state 0).toOption)))

/-- Counterexample to C6 as stated: after one tick of the rogue machine the
transition fires towards its `dst` field 5, so the active-slot pointer names
index 5 while the occupied count is 2 and slot 5 does not exist. -/
theorem active_slot_invariant_counterexample :
    (mRogue.bind (fun m2 => m2.runT)).map
        (fun p => (p.1.active_state, p.1.num_states,
          (p.1.states.getD 5 none).isNone)) = some (some 5, 2, true) := rfl

/-- Witness for the amended C6 on `mScan`. -/
theorem active_slot_in_range_preserved_witness :
    ({ mScan with active_state := some 1 } : StateMachine Nat).ActiveOk ∧
    (mScan.do_error_callback FsmError.StateIsEmpty).ActiveOk :=
  ⟨(active_slot_in_range_preserved mScan (by decide) (by decide)
      (by decide)).1 1 _ rfl,
   (active_slot_in_range_preserved mScan (by decide) (by decide)
      (by decide)).2.1 FsmError.StateIsEmpty⟩

/-! C10: machines built through the public API. -/

/-- Machines reachable through the public API: `new` followed by any
sequence of successful `add_state`, `add_transition`, `set_active_state`,
`set_error_callbacks` and non-panicking `run` calls (a failed registration
call leaves the Rust machine unchanged, so only successes matter). -/
inductive Reachable : StateMachine T → Prop where
  | new (data : T) (cap : Nat) : Reachable (StateMachine.new data cap)
  | add_state_ok {m m' : StateMachine T} (s : State T) {j : Nat} :
      Reachable m → m.add_state s = .ok (m', j) → Reachable m'
  | add_transition_ok {m m' : StateMachine T} (t : Transition T)
      (src dst : Nat) :
      Reachable m → m.add_transition t src dst = .ok m' → Reachable m'
  | set_active_ok {m m' : StateMachine T} (i : Nat) :
      Reachable m → m.set_active_state i = .ok m' → Reachable m'
  | set_error {m : StateMachine T} (cb1 cb2 : ErrorCallback T) :
      Reachable m → Reachable (m.set_error_callbacks cb1 cb2)
  | run_ok {m m' : StateMachine T} {tr : List Event} :
      Reachable m → m.runT = some (m', tr) → Reachable m'

/-- Like `Reachable`, but every `add_transition` registers a transition
whose own `dst` field equals the registration destination, as the
`new_transition!` macro does. -/
inductive ReachableM : StateMachine T → Prop where
  | new (data : T) (cap : Nat) : ReachableM (StateMachine.new data cap)
  | add_state_ok {m m' : StateMachine T} (s : State T) {j : Nat} :
      ReachableM m → m.add_state s = .ok (m', j) → ReachableM m'
  | add_transition_ok {m m' : StateMachine T} (t : Transition T)
      (src dst : Nat) :
      ReachableM m → t.dst = dst → m.add_transition t src dst = .ok m' →
      ReachableM m'
  | set_active_ok {m m' : StateMachine T} (i : Nat) :
      ReachableM m → m.set_active_state i = .ok m' → ReachableM m'
  | set_error {m : StateMachine T} (cb1 cb2 : ErrorCallback T) :
      ReachableM m → ReachableM (m.set_error_callbacks cb1 cb2)
  | run_ok {m m' : StateMachine T} {tr : List Event} :
      ReachableM m → m.runT = some (m', tr) → ReachableM m'

/-- Every API-reachable machine satisfies the structural invariant. -/
theorem Reachable_Inv {m : StateMachine T} (h : Reachable m) : m.Inv := by
  induction h with
  | new data cap => exact new_Inv data cap
  | add_state_ok s hr heq ih => exact (add_state_preserves _ s _ _ heq).1 ih
  | add_transition_ok t src dst hr heq ih =>
    exact (add_transition_preserves _ t src dst _ heq).1 ih
  | set_active_ok i hr heq ih => exact (set_active_preserves _ i _ heq).1 ih
  | set_error cb1 cb2 hr ih => exact ih
  | run_ok hr heq ih =>
    have pf := runT_preserves _ _ _ heq
    unfold StateMachine.Inv at ih ⊢
    rw [pf.1, pf.2.1, pf.2.2.1]
    exact ih

/-- Machines built with matching registration indices additionally keep
every stored `dst` field and the active pointer in range. -/
theorem ReachableM_good {m : StateMachine T} (h : ReachableM m) :
    m.Inv ∧ m.TransDst ∧ m.ActiveOk := by
  induction h with
  | new data cap =>
    exact ⟨new_Inv data cap, new_TransDst data cap, new_ActiveOk data cap⟩
  | add_state_ok s hr heq ih =>
    obtain ⟨hi, ht, ha⟩ := ih
    have p := add_state_preserves _ s _ _ heq
    exact ⟨p.1 hi, p.2.1 ht, p.2.2 ha⟩
  | add_transition_ok t src dst hr hdeq heq ih =>
    obtain ⟨hi, ht, ha⟩ := ih
    have p := add_transition_preserves _ t src dst _ heq
    have el := add_transition_ok_elim _ t src dst _ heq
    exact ⟨p.1 hi, p.2.1 hi ht (by rw [hdeq]; exact el.2.1), p.2.2 ha⟩
  | set_active_ok i hr heq ih =>
    obtain ⟨hi, ht, _⟩ := ih
    have p := set_active_preserves _ i _ heq
    exact ⟨p.1 hi, p.2.1 ht, p.2.2⟩
  | set_error cb1 cb2 hr ih => exact ih
  | run_ok hr heq ih =>
    obtain ⟨hi, ht, ha⟩ := ih
    have pf := runT_preserves _ _ _ heq
    refine ⟨?_, ?_, runT_ActiveOk _ _ _ heq hi ht ha⟩
    · unfold StateMachine.Inv at hi ⊢
      rw [pf.1, pf.2.1, pf.2.2.1]
      exact hi
    · unfold StateMachine.TransDst at ht ⊢
      rw [pf.2.1, pf.2.2.1]
      exact ht

/-- Under the structural invariant, `state` never reports an empty slot. -/
theorem state_ne_empty (m : StateMachine T) (hi : m.Inv) (i : Nat) :
    m.state i ≠ .error .StateIsEmpty := by
  unfold StateMachine.state
  split
  · simp
  · rename_i hge
    split
    · simp
    · rename_i heq
      exfalso
      obtain ⟨i1, i2, i3, i4, i5⟩ := hi
      have := i4 i (by simp only [List.mem_range]; omega)
      rw [heq] at this
      simp at this

/-- Under the structural invariant, `mut_state` never reports an empty
slot. -/
theorem mut_state_ne_empty (m : StateMachine T) (hi : m.Inv) (i : Nat) :
    m.mut_state i ≠ .error .StateIsEmpty := by
  unfold StateMachine.mut_state
  split
  · simp
  · rename_i hge
    split
    · simp
    · rename_i heq
      exfalso
      obtain ⟨i1, i2, i3, i4, i5⟩ := hi
      have := i4 i (by simp only [List.mem_range]; omega)
      rw [heq] at this
      simp at this

/-- Under the structural invariant, `set_active_state` never reports an
empty slot. -/
theorem set_active_ne_empty (m : StateMachine T) (hi : m.Inv) (i : Nat) :
    m.set_active_state i ≠ .error .StateIsEmpty := by
  unfold StateMachine.set_active_state
  rcases hs : m.state i with e1 | s
  · dsimp only
    intro hcontra
    simp only [Except.error.injEq] at hcontra
    subst hcontra
    exact state_ne_empty m hi i hs
  · simp

/-- Under the structural and active-slot invariants, the two `.expect`
calls of `run` cannot fire: one tick never panics. -/
theorem runT_ne_none (m : StateMachine T) (hi : m.Inv) (hao : m.ActiveOk) :
    m.runT ≠ none := by
  unfold StateMachine.runT
  rcases hact : m.active_state with _ | i
  · simp
  · dsimp only
    obtain ⟨hlt, hsome⟩ := hao i (by rw [hact]; simp [Option.toList])
    rcases hgd : m.states.getD i none with _ | s
    · rw [hgd] at hsome
      simp at hsome
    · have hst : m.state i = .ok s := by
        unfold StateMachine.state
        rw [if_neg (by omega), hgd]
      rw [hst]
      dsimp only
      rcases hscrut : (if m.active_state_initialized
          then (m.data, (none : Option FsmError))
          else s.do_init m.data) with ⟨d1, ei⟩
      cases ei with
      | some e => simp
      | none =>
        dsimp only
        rcases hex : s.do_exec d1 with ⟨d2, ee⟩
        cases ee with
        | some e => simp
        | none =>
          dsimp only
          rw [StateMachine.active_transitions]
          dsimp only
          rw [if_neg (by omega : ¬ i ≥ m.num_states)]
          dsimp only
          rcases hscan : scanTransitions (m.transitions.getD i []) 0 d2
            with ⟨dst, d3, trs⟩ | ⟨e3, d3, trs⟩ | ⟨d3, trs⟩ <;> simp

/-- C10 (amended): every API-reachable machine has all slots below the
occupied count occupied, and `state`, `mut_state` and `set_active_state`
never return `StateIsEmpty`; when moreover every registered transition's
`dst` field equals its registration destination (as the macros guarantee),
the `.expect` calls inside `run` never panic.  (Without that proviso the
expects can panic: see the counterexample.) -/
theorem reachable_slots_dense_no_panic (m : StateMachine T) :
    (Reachable m →
      (∀ i ∈ List.range m.num_states, (m.states.getD i none).isSome = true) ∧
      (∀ i, m.state i ≠ .error .StateIsEmpty) ∧
      (∀ i, m.mut_state i ≠ .error .StateIsEmpty) ∧
      (∀ i, m.set_active_state i ≠ .error .StateIsEmpty)) ∧
    (ReachableM m → m.runT ≠ none) := by
  constructor
  · intro hr
    have hi := Reachable_Inv hr
    exact ⟨hi.2.2.2.1, fun i => state_ne_empty m hi i,
      fun i => mut_state_ne_empty m hi i,
      fun i => set_active_ne_empty m hi i⟩
  · intro hrm
    obtain ⟨hi, _, ha⟩ := ReachableM_good hrm
    exact runT_ne_none m hi ha

/-- Counterexample to C10 as stated: on the rogue machine — built purely
through the public API — the first tick moves the active pointer to the
nonexistent slot 5, and the second tick's `.expect` panics (modelled as
`none`). -/
theorem run_expect_panic_counterexample :
    (mRogue.bind (fun m2 => m2.runTN 2)) = none := rfl

/-- A small machine reached by `new`, one `add_state` and one
`set_active_state`. -/
def mW : StateMachine Nat :=
  { data := 0
    states := [some sOk]
    num_states := 1
    transitions := [[none]]
    active_state := some 0
    active_state_initialized := false
    error := none }

/-- Witness for the amended C10 on `mW`. -/
theorem reachable_slots_dense_no_panic_witness :
    ((∀ i ∈ List.range mW.num_states, (mW.states.getD i none).isSome = true) ∧
     (∀ i, mW.state i ≠ .error .StateIsEmpty) ∧
     (∀ i, mW.mut_state i ≠ .error .StateIsEmpty) ∧
     (∀ i, mW.set_active_state i ≠ .error .StateIsEmpty)) ∧
    mW.runT ≠ none :=
  ⟨(reachable_slots_dense_no_panic mW).1
      (Reachable.set_active_ok 0
        (Reachable.add_state_ok sOk (Reachable.new 0 1) rfl) rfl),
   (reachable_slots_dense_no_panic mW).2
      (ReachableM.set_active_ok 0
        (ReachableM.add_state_ok sOk (ReachableM.new 0 1) rfl) rfl)⟩

end CallFsm
